import Mathlib

/-!
Verification development for the shape-detector pipeline (src/main.ts).

Shallow embedding conventions:
* pixels and contour points are exact integer pairs (the code only ever puts
  pixel coordinates into contours);
* JavaScript floating-point arithmetic is idealised as exact arithmetic:
  quantities that stay rational (extent, aspect ratio comparisons on the
  selector side) are embedded in the rationals, quantities built from square
  roots and pi (perimeter, perpendicular distance, circularity) live in the
  reals;
* the comparator `angleA - angleB` built from `Math.atan2` in `convexHull` is
  embedded as the exact angular order of the direction vectors: `atan2` is
  monotone in the angle, all angles lie in (-pi, pi], and equal angles give a
  zero comparator, so a stable sort by the exact order is the faithful model
  of the stable Array.prototype.sort;
* the recursive `douglasPeucker` is embedded with an explicit fuel equal to
  the input length; whenever the source recursion terminates (in the pipeline
  the tolerance is nonnegative, which forces the split index to be at least 1
  and both slices to be strictly shorter) the fuel is never exhausted, as the
  lemmas below establish at every use.
-/

namespace ShapeDetector

/-- Pixel / contour point, exact integer coordinates. -/
abbrev Pt := ℤ × ℤ

/-- Shape categories of the detector (the `type` field of `DetectedShape`). -/
inductive ShapeType
  | circle
  | triangle
  | rectangle
  | pentagon
  | star
  deriving DecidableEq, Repr

/-- Bounding box record: `{x, y, width, height}` from `analyzeComponent`. -/
structure BBox where
  x : ℤ
  y : ℤ
  width : ℤ
  height : ℤ
  deriving DecidableEq, Repr

/-- Result record produced per component (`DetectedShape` in main.ts). -/
structure DetectedShape where
  type : ShapeType
  confidence : ℝ
  boundingBox : BBox
  center : ℚ × ℚ
  area : ℕ

/-- Cross product for the orientation test (`crossProduct`, main.ts 681-683). -/
def crossProduct (o a b : Pt) : ℤ :=
  (a.1 - o.1) * (b.2 - o.2) - (a.2 - o.2) * (b.1 - o.1)

/-- Angular region of a direction vector, ascending with `atan2 v.2 v.1` on
(-pi, pi]: region 0 is (-pi, 0) (v.2 < 0), region 1 is angle 0 (v.2 = 0 with
0 <= v.1, including the zero vector, as `atan2 0 0 = 0`), region 2 is (0, pi)
(0 < v.2), region 3 is angle pi (v.2 = 0, v.1 < 0). -/
def angReg (v : ℤ × ℤ) : ℕ :=
  if v.2 < 0 then 0
  else if v.2 = 0 ∧ 0 ≤ v.1 then 1
  else if 0 < v.2 then 2
  else 3

/-- Exact model of `atan2(a.y-bottom.y, a.x-bottom.x) < atan2(b.y-bottom.y,
b.x-bottom.x)`: compare angular regions first; inside the open half-plane
regions (width < pi) the strict angular order is the sign of the cross
product of the direction vectors; inside regions 1 and 3 the direction
vectors are parallel, so the cross product is 0 and the angles are equal. -/
def angLt (bottom a b : Pt) : Prop :=
  angReg (a.1 - bottom.1, a.2 - bottom.2) < angReg (b.1 - bottom.1, b.2 - bottom.2) ∨
    (angReg (a.1 - bottom.1, a.2 - bottom.2) = angReg (b.1 - bottom.1, b.2 - bottom.2) ∧
      0 < (a.1 - bottom.1) * (b.2 - bottom.2) - (a.2 - bottom.2) * (b.1 - bottom.1))

instance (bottom a b : Pt) : Decidable (angLt bottom a b) := by
  unfold angLt; infer_instance

/-- Pop loop of the Graham scan (main.ts 669-671).  The stack is kept in
reverse (most recently pushed point first), so `b` is `hull[len-1]` and `a`
is `hull[len-2]`; the returned hull is reversed back to array order at the
end of `convexHull`. -/
def popWhile (p : Pt) : List Pt → List Pt
  | b :: a :: rest => if crossProduct a b p ≤ 0 then popWhile p (a :: rest) else b :: a :: rest
  | s => s

/-- One step of the Graham scan: pop while the last two stack points and the
candidate form a non-left turn, then push the candidate. -/
def scanStep (stack : List Pt) (p : Pt) : List Pt :=
  p :: popWhile p stack

/-- Pivot of the Graham scan (main.ts 652-658): the point with maximal y,
ties broken by minimal x, found by the source's fold starting from the first
point. -/
def bottomOf (points : List Pt) : Pt :=
  points.foldl (fun b p => if b.2 < p.2 ∨ (p.2 = b.2 ∧ p.1 < b.1) then p else b) points.headI

/-- Stable sort of all points (the pivot included) by polar angle around the
pivot (main.ts 661-665); see `angLt` for the exact model of the comparator. -/
def sortedByAngle (points : List Pt) : List Pt :=
  List.insertionSort (fun a b => ¬ angLt (bottomOf points) b a) points

/-- Convex hull via the source's Graham scan (main.ts 649-676): early return
for fewer than 3 points; otherwise the sweep over the angularly sorted points
popping on cross product <= 0. -/
def convexHull (points : List Pt) : List Pt :=
  if points.length < 3 then points
  else ((sortedByAngle points).foldl scanStep []).reverse

/-- Euclidean distance between two contour points. -/
noncomputable def distR (p q : Pt) : ℝ :=
  Real.sqrt ((((q.1 - p.1 : ℤ) : ℝ)) ^ 2 + (((q.2 - p.2 : ℤ) : ℝ)) ^ 2)

/-- Closed-loop perimeter of a contour (`calculatePerimeter`, main.ts
636-644): sum of the distances between consecutive points, wrapping from the
last point back to the first. -/
noncomputable def calculatePerimeter (contour : List Pt) : ℝ :=
  ∑ i ∈ Finset.range contour.length,
    distR (contour.getD i default) (contour.getD ((i + 1) % contour.length) default)

/-- Perpendicular distance from a point to the line through `lineStart` and
`lineEnd` (`perpendicularDistance`, main.ts 740-746). -/
noncomputable def perpendicularDistance (point lineStart lineEnd : Pt) : ℝ :=
  let dx : ℤ := lineEnd.1 - lineStart.1
  let dy : ℤ := lineEnd.2 - lineStart.2
  let num : ℤ := |dy * point.1 - dx * point.2 + lineEnd.1 * lineStart.2 - lineEnd.2 * lineStart.1|
  (num : ℝ) / Real.sqrt ((dx * dx + dy * dy : ℤ) : ℝ)

/-- Maximal perpendicular distance of the interior points to the
endpoint-to-endpoint line together with the index realising it (the loop of
main.ts 716-726): indices 1 .. length-2, strict improvement, starting from
distance 0 and index 0. -/
noncomputable def maxDistIdx (points : List Pt) : ℝ × ℕ :=
  (List.range' 1 (points.length - 2)).foldl
    (fun md i =>
      let d := perpendicularDistance (points.getD i default) points.headI points.getLastI
      if md.1 < d then (d, i) else md)
    (0, 0)

/-- Fuelled Douglas-Peucker recursion (`douglasPeucker`, main.ts 713-735).
The source recursion is on the two slices `points.slice(0, index+1)` and
`points.slice(index)`; with the fuel set to the input length (see
`douglasPeucker` below) the fuel is never exhausted whenever the source
recursion terminates, because a split index >= 1 makes both slices strictly
shorter. -/
noncomputable def douglasPeuckerFuel : ℕ → List Pt → ℝ → List Pt
  | 0, points, _ => points
  | fuel + 1, points, epsilon =>
    if points.length < 3 then points
    else
      let md := maxDistIdx points
      if epsilon < md.1 then
        let left := douglasPeuckerFuel fuel (points.take (md.2 + 1)) epsilon
        let right := douglasPeuckerFuel fuel (points.drop md.2) epsilon
        left.dropLast ++ right
      else [points.headI, points.getLastI]

/-- Douglas-Peucker polygon simplification with tolerance `epsilon`. -/
noncomputable def douglasPeucker (points : List Pt) (epsilon : ℝ) : List Pt :=
  douglasPeuckerFuel points.length points epsilon

/-- Sample `n` evenly spaced points (`samplePoints`, main.ts 688-700); the
float index `Math.floor(i * (length / n))` is the floor of the exact
rational. -/
def samplePoints (points : List Pt) (n : ℕ) : List Pt :=
  if points.length ≤ n then points
  else (List.range n).map fun i =>
    points.getD (Int.toNat (Int.floor ((i * points.length : ℚ) / n))) default

/-- Boundary extraction (`extractBoundary`, main.ts 354-379): a component
pixel is a boundary pixel iff one of its 4 neighbours is inside the image but
outside the component; membership uses the same `y * width + x` key encoding
as the source's Set. -/
def extractBoundary (component : List Pt) (width height : ℤ) : List Pt :=
  let keys := component.map fun p => p.2 * width + p.1
  component.filter fun p =>
    [(p.1 + 1, p.2), (p.1 - 1, p.2), (p.1, p.2 + 1), (p.1, p.2 - 1)].any fun q =>
      decide (0 ≤ q.1) && decide (q.1 < width) && decide (0 ≤ q.2) && decide (q.2 < height) &&
        !(keys.contains (q.2 * width + q.1))

/-- Circle sub-test (`isCircular`, main.ts 525-561), as the exact predicate
realised by the source's early-return structure: reject when the aspect ratio
is off; reject when circularity or extent is too low; otherwise accept iff
the mean relative radial error of the hull points is below 0.20. -/
noncomputable def isCircular (hull : List Pt) (center : ℚ × ℚ) (bbox : BBox)
    (circularity extent aspectRatio : ℝ) : Prop :=
  ¬ (0.25 < |aspectRatio - 1|) ∧
  ¬ (circularity < 0.70 ∨ extent < 0.70) ∧
  (hull.map fun p =>
      |Real.sqrt (((p.1 : ℝ) - (center.1 : ℝ)) ^ 2 + ((p.2 : ℝ) - (center.2 : ℝ)) ^ 2) -
          ((bbox.width : ℝ) + (bbox.height : ℝ)) / 4| /
        (((bbox.width : ℝ) + (bbox.height : ℝ)) / 4)).sum / hull.length < 0.20

open Classical in
/-- Star sub-test (`isStar`, main.ts 566-629): reject when the extent is too
high, the vertex count is outside 6..25 or the hull has fewer than 8 points;
otherwise require a coefficient of variation of the hull radial distances of
at least 0.10 and enough alternations between consecutive radial distances. -/
noncomputable def isStar (hull : List Pt) (center : ℚ × ℚ) (vertices : ℕ)
    (extent : ℝ) : Prop :=
  let distances : List ℝ := hull.map fun p =>
    Real.sqrt (((p.1 : ℝ) - (center.1 : ℝ)) ^ 2 + ((p.2 : ℝ) - (center.2 : ℝ)) ^ 2)
  let avgDist : ℝ := distances.sum / distances.length
  let variance : ℝ := (distances.map fun d => (d - avgDist) ^ 2).sum / distances.length
  ¬ (0.50 < extent) ∧
  ¬ (vertices < 6 ∨ 25 < vertices) ∧
  ¬ (distances.length < 8) ∧
  ¬ (Real.sqrt variance / avgDist < 0.10) ∧
  min 4 (Int.toNat (Int.floor ((distances.length : ℝ) * 0.3))) ≤
    ((List.range distances.length).filter fun i =>
      decide (avgDist * 0.15 <
        |distances.getD i 0 - distances.getD ((i + 1) % distances.length) 0|)).length

open Classical in
/-- Decision procedure of the classifier (`classifyShape`, main.ts 395-520):
the first matching rule wins; the nested star blocks of the source fall
through to the later rules when the sub-test fails, which the flattened
conditions reproduce by conjoining the sub-test with the guard. -/
noncomputable def classifyShape (approx hull : List Pt) (bbox : BBox) (center : ℚ × ℚ)
    (area : ℕ) (perimeter : ℝ) : Option (ShapeType × ℝ) :=
  let vertices := approx.length
  let aspectRatio : ℝ := (bbox.width : ℝ) / (bbox.height : ℝ)
  let extent : ℝ := (area : ℝ) / ((bbox.width : ℝ) * (bbox.height : ℝ))
  let circularity : ℝ := 4 * Real.pi * (area : ℝ) / (perimeter * perimeter)
  if isCircular hull center bbox circularity extent aspectRatio then
    some (ShapeType.circle, 0.90 + min 0.08 (circularity * 0.1))
  else if vertices = 3 then some (ShapeType.triangle, 0.92)
  else if vertices = 4 ∧ 0.70 < extent then
    some (ShapeType.rectangle, if 0.85 < extent then 0.95 else 0.88)
  else if vertices = 4 ∧ extent < 0.60 then some (ShapeType.triangle, 0.85)
  else if vertices = 5 ∧ 0.65 < extent then
    some (ShapeType.pentagon, if 0.75 < extent then 0.88 else 0.80)
  else if vertices = 5 ∧ 0.45 < extent ∧ extent ≤ 0.65 ∧ 0.7 < aspectRatio ∧ aspectRatio < 1.5 then
    some (ShapeType.rectangle, 0.82)
  else if 8 ≤ vertices ∧ extent < 0.50 ∧ isStar hull center vertices extent then
    some (ShapeType.star, 0.85)
  else if 6 ≤ vertices ∧ vertices ≤ 7 ∧ extent < 0.38 ∧ isStar hull center vertices extent then
    some (ShapeType.star, 0.75)
  else if vertices = 4 then some (ShapeType.rectangle, 0.78)
  else if vertices = 5 then
    (if extent < 0.55 then some (ShapeType.triangle, 0.70) else some (ShapeType.pentagon, 0.75))
  else if vertices = 6 ∧ 0.50 < extent then some (ShapeType.pentagon, 0.70)
  else if 7 ≤ vertices ∧ extent < 0.50 then some (ShapeType.star, 0.70)
  else if 10 ≤ vertices ∧ extent < 0.60 then some (ShapeType.star, 0.65)
  else if 10 ≤ vertices ∧ 0.80 < extent then some (ShapeType.rectangle, 0.60)
  else if vertices = 2 ∧ 0.85 < extent then some (ShapeType.rectangle, 0.70)
  else none

/-- Contour choice (main.ts 260-278): the boundary for very concave
components (extent < 0.40) and for a degenerate hull with a well-filled box
(hull < 4 points and extent > 0.80); the hull otherwise.  The extent is the
exact rational pixel-count over bounding-box-area ratio. -/
def selectContour (hull boundary : List Pt) (extent : ℚ) : List Pt :=
  if extent < 0.40 then boundary
  else if hull.length < 4 ∧ 0.80 < extent then boundary
  else hull

/-- Polygon-approximation stage applied to the selected contour (main.ts
284-328): a first pass with tolerance 0.01 * perimeter; in the non-star
branch (extent >= 0.40) a retry with 0.005 * perimeter when fewer than 4
vertices remain and extent > 0.80, then a uniform-sampling fallback under the
same guard, then a coarsening pass with 0.03 * perimeter that is kept only
when it leaves at least 4 vertices. -/
noncomputable def finalApprox (extent : ℚ) (contour : List Pt) : List Pt :=
  let per := calculatePerimeter contour
  let a1 := douglasPeucker contour (0.01 * per)
  if extent < 0.40 then a1
  else
    let a2 := if a1.length < 4 ∧ 0.80 < extent then douglasPeucker contour (0.005 * per) else a1
    let a3 := if a2.length < 4 ∧ 0.80 < extent then
        samplePoints contour (min contour.length 12) else a2
    if 12 < a3.length ∧ ¬ (0.80 < extent ∧ a3.length < 20) then
      let coarse := douglasPeucker contour (0.03 * per)
      if 4 ≤ coarse.length then coarse else a3
    else a3

/-- Guard of the finer-tolerance retry (main.ts 298): it sits in the else
branch of `extent < 0.40`, and fires when the first simplification left fewer
than 4 vertices while extent > 0.80 — for whichever contour was selected. -/
noncomputable def refineFires (extent : ℚ) (contour : List Pt) : Prop :=
  ¬ ((extent : ℚ) < 0.40) ∧
    (douglasPeucker contour (0.01 * calculatePerimeter contour)).length < 4 ∧
    (0.80 : ℚ) < extent

/-- Bounding box of a component (main.ts 211-224): the four extrema folds
start from `width`, `0`, `height`, `0` exactly as the source initialises
them. -/
def bboxOf (component : List Pt) (width height : ℤ) : BBox :=
  let minX : ℤ := component.foldl (fun m p => min m p.1) width
  let maxX : ℤ := component.foldl (fun m p => max m p.1) 0
  let minY : ℤ := component.foldl (fun m p => min m p.2) height
  let maxY : ℤ := component.foldl (fun m p => max m p.2) 0
  ⟨minX, minY, maxX - minX + 1, maxY - minY + 1⟩

/-- Component center (main.ts 234-236): the exact midpoint
((minX+maxX)/2, (minY+maxY)/2) of the extreme pixel coordinates, using the
same extrema folds as the bounding box. -/
def centerOf (component : List Pt) (width height : ℤ) : ℚ × ℚ :=
  let minX : ℤ := component.foldl (fun m p => min m p.1) width
  let maxX : ℤ := component.foldl (fun m p => max m p.1) 0
  let minY : ℤ := component.foldl (fun m p => min m p.2) height
  let maxY : ℤ := component.foldl (fun m p => max m p.2) 0
  (((minX : ℚ) + (maxX : ℚ)) / 2, ((minY : ℚ) + (maxY : ℚ)) / 2)

/-- Boundary of a component inside the image. -/
def boundaryOf (component : List Pt) (width height : ℤ) : List Pt :=
  extractBoundary component width height

/-- Hull computed from the boundary (main.ts 251). -/
def hullOf (component : List Pt) (width height : ℤ) : List Pt :=
  convexHull (boundaryOf component width height)

/-- Exact extent: pixel count over bounding-box area (main.ts 255-256). -/
def extentOf (component : List Pt) (width height : ℤ) : ℚ :=
  let b := bboxOf component width height
  (component.length : ℚ) / ((b.width * b.height : ℤ) : ℚ)

/-- Contour actually used for perimeter and simplification. -/
def contourOf (component : List Pt) (width height : ℤ) : List Pt :=
  selectContour (hullOf component width height) (boundaryOf component width height)
    (extentOf component width height)

/-- Perimeter value handed to the classifier. -/
noncomputable def perimOf (component : List Pt) (width height : ℤ) : ℝ :=
  calculatePerimeter (contourOf component width height)

/-- Per-component analysis (`analyzeComponent`, main.ts 209-349): bounding
box and size filter, center and pixel-count area, boundary filter, contour
selection and adaptive approximation, classification; on success the result
record carries the bounding box, the center and the pixel-count area computed
before any contour work. -/
noncomputable def analyzeComponent (component : List Pt) (width height : ℤ) :
    Option DetectedShape :=
  let bbox := bboxOf component width height
  if bbox.width < 10 ∨ bbox.height < 10 then none
  else if (boundaryOf component width height).length < 8 then none
  else
    match classifyShape (finalApprox (extentOf component width height)
        (contourOf component width height))
        (hullOf component width height) bbox (centerOf component width height)
        component.length (perimOf component width height) with
    | none => none
    | some (t, conf) =>
      some ⟨t, conf, bbox, centerOf component width height, component.length⟩

/-- Per-image loop over the labelled components (`detectShapes`, main.ts
81-92): components with fewer than 50 pixels are skipped, each remaining
component is analysed independently, and successful analyses are collected in
order. -/
noncomputable def detectShapesList (components : List (List Pt)) (width height : ℤ) :
    List DetectedShape :=
  components.filterMap fun component =>
    if component.length < 50 then none else analyzeComponent component width height

/-- Perpendicular distance of the interior point at index `i` to the line
through the first and last points, as computed inside `douglasPeucker`. -/
noncomputable def interiorDist (points : List Pt) (i : ℕ) : ℝ :=
  perpendicularDistance (points.getD i default) points.headI points.getLastI

/-- No three (index-ordered) points of the sequence are collinear; degenerate
triples with repeated points count as collinear, so this also forces the
points to be pairwise distinct once there are at least three of them. -/
def NoCol3 (l : List Pt) : Prop :=
  ∀ k, k < l.length → ∀ j, j < k → ∀ i, i < j →
    crossProduct (l.getD i default) (l.getD j default) (l.getD k default) ≠ 0

instance (l : List Pt) : Decidable (NoCol3 l) := by
  unfold NoCol3
  infer_instance

/-- Eight collinear pixels: a boundary on which the hull degenerates to two
points and the first simplification pass collapses to the two endpoints. -/
def collinear8 : List Pt := [(0, 0), (1, 0), (2, 0), (3, 0), (4, 0), (5, 0), (6, 0), (7, 0)]

/-- Nine collinear pixels, same situation as `collinear8`. -/
def collinear9 : List Pt :=
  [(0, 0), (1, 0), (2, 0), (3, 0), (4, 0), (5, 0), (6, 0), (7, 0), (8, 0)]

/-- Concrete 55-pixel component: the filled right triangle with vertices
(1,1), (10,1), (10,10), listed in row-major order as the labeller would
produce it. -/
def triComponent : List Pt :=
  (List.range 10).flatMap fun y =>
    (List.range 10).filterMap fun x =>
      if y ≤ x then some ((x : ℤ) + 1, (y : ℤ) + 1) else none

/-- Four points at exact distance 10 from the origin: a hull on which the
radius-variance part of the circle sub-test is exactly 0. -/
def circleHull : List Pt := [(10, 0), (0, 10), (-10, 0), (0, -10)]

end ShapeDetector

namespace ShapeDetector

/-! Lemmas about the Graham scan. -/

lemma popWhile_ne_nil (p : Pt) (s : List Pt) (h : s ≠ []) : popWhile p s ≠ [] := by
  induction s with
  | nil => exact absurd rfl h
  | cons b t ih =>
    cases t with
    | nil => simp [popWhile]
    | cons a rest =>
      rw [popWhile]
      split
      · exact ih (by simp)
      · simp

lemma popWhile_sublist (p : Pt) (s : List Pt) : List.Sublist (popWhile p s) s := by
  induction s with
  | nil => simp [popWhile]
  | cons b t ih =>
    cases t with
    | nil => simp [popWhile]
    | cons a rest =>
      rw [popWhile]
      split
      · exact ih.trans (List.sublist_cons_self b (a :: rest))
      · exact List.Sublist.refl _

lemma scanStep_length (stack : List Pt) (p : Pt) (h : 1 ≤ stack.length) :
    2 ≤ (scanStep stack p).length := by
  have hne : stack ≠ [] := by
    intro hs; rw [hs] at h; simp at h
  have := popWhile_ne_nil p stack hne
  have hlen : 1 ≤ (popWhile p stack).length := List.length_pos.mpr this
  simp only [scanStep, List.length_cons]
  omega

lemma foldl_scan_length (l : List Pt) : ∀ acc : List Pt, 2 ≤ acc.length →
    2 ≤ (l.foldl scanStep acc).length := by
  induction l with
  | nil => intro acc h; simpa using h
  | cons p t ih =>
    intro acc h
    simp only [List.foldl_cons]
    exact ih _ (scanStep_length acc p (by omega))

lemma scan_stack_sublist (l : List Pt) : ∀ acc : List Pt,
    List.Sublist (l.foldl scanStep acc) (l.reverse ++ acc) := by
  induction l with
  | nil => intro acc; simp
  | cons p t ih =>
    intro acc
    have h1 : (p :: t).foldl scanStep acc = t.foldl scanStep (scanStep acc p) := rfl
    rw [h1]
    refine (ih (scanStep acc p)).trans ?_
    have h2 : List.Sublist (scanStep acc p) (p :: acc) :=
      List.Sublist.cons₂ p (popWhile_sublist p acc)
    have h3 : List.Sublist (t.reverse ++ scanStep acc p) (t.reverse ++ (p :: acc)) :=
      List.Sublist.append_left h2 t.reverse
    simpa [List.reverse_cons, List.append_assoc] using h3

lemma convexHull_length (points : List Pt) (h : 3 ≤ points.length) :
    2 ≤ (convexHull points).length := by
  rw [convexHull, if_neg (by omega)]
  have hlen : (sortedByAngle points).length = points.length :=
    (List.perm_insertionSort _ points).length_eq
  match hm : sortedByAngle points with
  | [] => rw [hm] at hlen; simp at hlen; omega
  | [s1] => rw [hm] at hlen; simp at hlen; omega
  | s1 :: s2 :: rest =>
    have h1 : (s1 :: s2 :: rest).foldl scanStep [] =
        rest.foldl scanStep (scanStep (scanStep [] s1) s2) := rfl
    have h2 : scanStep [] s1 = [s1] := rfl
    have h3 : scanStep [s1] s2 = [s2, s1] := rfl
    rw [List.length_reverse, h1, h2, h3]
    exact foldl_scan_length rest [s2, s1] (by simp)

lemma convexHull_sublist_sorted (points : List Pt) :
    ∃ q : List Pt, points.Perm q ∧ List.Sublist (convexHull points) q := by
  rw [convexHull]
  split
  · exact ⟨points, List.Perm.refl _, List.Sublist.refl _⟩
  · refine ⟨sortedByAngle points, (List.perm_insertionSort _ points).symm, ?_⟩
    have h1 : List.Sublist ((sortedByAngle points).foldl scanStep [])
        (sortedByAngle points).reverse := by
      simpa using scan_stack_sublist (sortedByAngle points) []
    have h2 := h1.reverse
    simpa using h2

lemma convexHull_nodup (points : List Pt) (h : points.Nodup) :
    (convexHull points).Nodup := by
  obtain ⟨q, hperm, hsub⟩ := convexHull_sublist_sorted points
  exact hsub.nodup (hperm.nodup_iff.mp h)

/-! Lemmas about distances and the perimeter. -/

lemma distR_nonneg (p q : Pt) : 0 ≤ distR p q := Real.sqrt_nonneg _

lemma distR_pos (p q : Pt) (h : p ≠ q) : 0 < distR p q := by
  rw [distR, Real.sqrt_pos]
  have hne : q.1 - p.1 ≠ 0 ∨ q.2 - p.2 ≠ 0 := by
    by_contra hc
    push_neg at hc
    exact h (Prod.ext (by omega) (by omega)).symm
  rcases hne with h1 | h1
  · have : (0 : ℝ) < ((q.1 - p.1 : ℤ) : ℝ) ^ 2 := by
      have : ((q.1 - p.1 : ℤ) : ℝ) ≠ 0 := Int.cast_ne_zero.mpr h1
      positivity
    nlinarith [sq_nonneg (((q.2 - p.2 : ℤ) : ℝ))]
  · have : (0 : ℝ) < ((q.2 - p.2 : ℤ) : ℝ) ^ 2 := by
      have : ((q.2 - p.2 : ℤ) : ℝ) ≠ 0 := Int.cast_ne_zero.mpr h1
      positivity
    nlinarith [sq_nonneg (((q.1 - p.1 : ℤ) : ℝ))]

lemma calculatePerimeter_nonneg (c : List Pt) : 0 ≤ calculatePerimeter c :=
  Finset.sum_nonneg fun _ _ => distR_nonneg _ _

lemma calculatePerimeter_pos (c : List Pt) (h2 : 2 ≤ c.length) (hnd : c.Nodup) :
    0 < calculatePerimeter c := by
  match c, h2, hnd with
  | a :: b :: t, _, hnd =>
    have hab : a ≠ b := by
      have := (List.nodup_cons.mp hnd).1
      intro hc; exact this (hc ▸ List.mem_cons_self b t)
    rw [calculatePerimeter]
    refine Finset.sum_pos' (fun i _ => distR_nonneg _ _) ⟨0, ?_, ?_⟩
    · simp
    · have hmod : (0 + 1) % (a :: b :: t).length = 1 := by
        refine Nat.mod_eq_of_lt ?_
        simp only [List.length_cons]
        omega
      rw [hmod]
      simpa using distR_pos a b hab

/-! Lemmas about the perpendicular distance and the max-distance scan. -/

lemma num_eq_abs_cross (p a b : Pt) :
    |(b.2 - a.2) * p.1 - (b.1 - a.1) * p.2 + b.1 * a.2 - b.2 * a.1| = |crossProduct a b p| := by
  have h : (b.2 - a.2) * p.1 - (b.1 - a.1) * p.2 + b.1 * a.2 - b.2 * a.1 =
      -((b.1 - a.1) * (p.2 - a.2) - (b.2 - a.2) * (p.1 - a.1)) := by ring
  rw [crossProduct, h, abs_neg]

lemma perpendicularDistance_eq (p a b : Pt) :
    perpendicularDistance p a b =
      ((|crossProduct a b p| : ℤ) : ℝ) /
        Real.sqrt ((((b.1 - a.1) * (b.1 - a.1) + (b.2 - a.2) * (b.2 - a.2) : ℤ)) : ℝ) := by
  simp only [perpendicularDistance, num_eq_abs_cross]

lemma perpendicularDistance_nonneg (p a b : Pt) : 0 ≤ perpendicularDistance p a b := by
  rw [perpendicularDistance_eq]
  apply div_nonneg _ (Real.sqrt_nonneg _)
  exact_mod_cast abs_nonneg (crossProduct a b p)

lemma perpendicularDistance_zero (p a b : Pt) (h : crossProduct a b p = 0) :
    perpendicularDistance p a b = 0 := by
  rw [perpendicularDistance_eq, h]
  simp

lemma perpendicularDistance_pos (p a b : Pt) (h : crossProduct a b p ≠ 0) :
    0 < perpendicularDistance p a b := by
  rw [perpendicularDistance_eq]
  apply div_pos
  · exact_mod_cast abs_pos.mpr h
  · apply Real.sqrt_pos.mpr
    have hab : ¬ (b.1 - a.1 = 0 ∧ b.2 - a.2 = 0) := by
      rintro ⟨h1, h2⟩
      exact h (by simp [crossProduct, show b.1 - a.1 = 0 from h1, show b.2 - a.2 = 0 from h2])
    have hz : (0 : ℤ) < (b.1 - a.1) * (b.1 - a.1) + (b.2 - a.2) * (b.2 - a.2) := by
      rcases not_and_or.mp hab with h1 | h1
      · nlinarith [mul_self_pos.mpr h1, mul_self_nonneg (b.2 - a.2)]
      · nlinarith [mul_self_pos.mpr h1, mul_self_nonneg (b.1 - a.1)]
    exact_mod_cast hz

lemma foldMax_inv (f : ℕ → ℝ) (is : List ℕ) : ∀ acc : ℝ × ℕ,
    acc.1 ≤ (is.foldl (fun md i => if md.1 < f i then (f i, i) else md) acc).1 ∧
    (∀ i ∈ is, f i ≤ (is.foldl (fun md i => if md.1 < f i then (f i, i) else md) acc).1) ∧
    ((is.foldl (fun md i => if md.1 < f i then (f i, i) else md) acc) = acc ∨
      ((is.foldl (fun md i => if md.1 < f i then (f i, i) else md) acc).2 ∈ is ∧
        (is.foldl (fun md i => if md.1 < f i then (f i, i) else md) acc).1 =
          f (is.foldl (fun md i => if md.1 < f i then (f i, i) else md) acc).2)) := by
  induction is with
  | nil => intro acc; simp
  | cons j t ih =>
    intro acc
    simp only [List.foldl_cons]
    obtain ⟨ih1, ih2, ih3⟩ := ih (if acc.1 < f j then (f j, j) else acc)
    have hstep1 : acc.1 ≤ (if acc.1 < f j then ((f j, j) : ℝ × ℕ) else acc).1 := by
      split
      · exact le_of_lt (by assumption)
      · exact le_refl _
    have hstep2 : f j ≤ (if acc.1 < f j then ((f j, j) : ℝ × ℕ) else acc).1 := by
      split
      · exact le_refl _
      · exact le_of_not_lt (by assumption)
    refine ⟨hstep1.trans ih1, ?_, ?_⟩
    · intro i hi
      rcases List.mem_cons.mp hi with rfl | hi
      · exact hstep2.trans ih1
      · exact ih2 i hi
    · rcases ih3 with heq | ⟨hmem, hval⟩
      · rw [heq]
        by_cases hc : acc.1 < f j
        · right
          rw [if_pos hc]
          exact ⟨List.mem_cons_self j t, rfl⟩
        · left
          rw [if_neg hc]
      · exact Or.inr ⟨List.mem_cons_of_mem j hmem, hval⟩

lemma maxDistIdx_spec (points : List Pt) :
    0 ≤ (maxDistIdx points).1 ∧
    (∀ i ∈ List.range' 1 (points.length - 2), interiorDist points i ≤ (maxDistIdx points).1) ∧
    (maxDistIdx points = (0, 0) ∨
      ((maxDistIdx points).2 ∈ List.range' 1 (points.length - 2) ∧
        (maxDistIdx points).1 = interiorDist points (maxDistIdx points).2)) := by
  have hdef : maxDistIdx points = (List.range' 1 (points.length - 2)).foldl
      (fun md i => if md.1 < interiorDist points i then (interiorDist points i, i) else md)
      (0, 0) := rfl
  obtain ⟨h1, h2, h3⟩ := foldMax_inv (interiorDist points) (List.range' 1 (points.length - 2)) (0, 0)
  rw [hdef]
  exact ⟨h1, h2, h3⟩

/-! List utility lemmas used by the Douglas-Peucker proofs. -/

lemma getD_zero_eq_headI (l : List Pt) (h : l ≠ []) : l.getD 0 default = l.headI := by
  cases l with
  | nil => exact absurd rfl h
  | cons a t => rfl

lemma getD_last_eq_getLastI (l : List Pt) (h : l ≠ []) :
    l.getD (l.length - 1) default = l.getLastI := by
  have hlt : l.length - 1 < l.length := by
    have : 0 < l.length := List.length_pos.mpr h
    omega
  rw [List.getD_eq_getElem?_getD, List.getLastI_eq_getLast?, List.getLast?_eq_getElem?,
    List.getElem?_eq_getElem hlt]
  rfl

lemma headI_mem (l : List Pt) (h : l ≠ []) : l.headI ∈ l := by
  cases l with
  | nil => exact absurd rfl h
  | cons a t => exact List.mem_cons_self a t

lemma getLastI_mem (l : List Pt) (h : l ≠ []) : l.getLastI ∈ l := by
  rw [List.getLastI_eq_getLast?, List.getLast?_eq_getLast l h]
  exact List.getLast_mem h

lemma getLastI_append (A B : List Pt) (h : B ≠ []) : (A ++ B).getLastI = B.getLastI := by
  rw [List.getLastI_eq_getLast?, List.getLastI_eq_getLast?, List.getLast?_append,
    List.getLast?_eq_getLast B h]
  rfl

lemma headI_append (A B : List Pt) (h : A ≠ []) : (A ++ B).headI = A.headI := by
  cases A with
  | nil => exact absurd rfl h
  | cons a t => rfl

lemma headI_take (l : List Pt) (n : ℕ) (hn : 1 ≤ n) (h : l ≠ []) :
    (l.take n).headI = l.headI := by
  cases l with
  | nil => exact absurd rfl h
  | cons a t =>
    cases n with
    | zero => omega
    | succ m => rfl

lemma getLastI_take_succ (l : List Pt) (n : ℕ) (hn : n < l.length) :
    (l.take (n + 1)).getLastI = l.getD n default := by
  rw [List.take_succ, List.getElem?_eq_getElem hn, Option.toList_some,
    getLastI_append _ _ (by simp), List.getD_eq_getElem?_getD, List.getElem?_eq_getElem hn]
  rfl

lemma headI_drop (l : List Pt) (n : ℕ) (hn : n < l.length) :
    (l.drop n).headI = l.getD n default := by
  have hne : l.drop n ≠ [] := by
    apply List.ne_nil_of_length_pos
    rw [List.length_drop]
    omega
  rw [← getD_zero_eq_headI _ hne, List.getD_eq_getElem?_getD, List.getElem?_drop,
    List.getD_eq_getElem?_getD]
  rfl

lemma getLastI_drop (l : List Pt) (n : ℕ) (hn : n < l.length) :
    (l.drop n).getLastI = l.getLastI := by
  have hne : l.drop n ≠ [] := by
    apply List.ne_nil_of_length_pos
    rw [List.length_drop]
    omega
  conv_rhs => rw [← List.take_append_drop n l]
  rw [getLastI_append _ _ hne]

lemma headI_dropLast (l : List Pt) (h : 2 ≤ l.length) : l.dropLast.headI = l.headI := by
  match l, h with
  | a :: b :: t, _ => rw [List.dropLast_cons₂]; rfl

lemma sublist_concat_dropLast (A B : List Pt) (x : Pt) (h : List.Sublist A (B ++ [x])) :
    List.Sublist A.dropLast B := by
  rcases List.sublist_append_iff.mp h with ⟨y, z, rfl, hy, hz⟩
  cases z with
  | nil => simpa using (List.dropLast_sublist y).trans hy
  | cons c t =>
    have hc : c = x := by
      have := hz.subset (List.mem_cons_self c t)
      simpa using this
    have ht : t = [] := by
      have hlen : t.length + 1 ≤ 1 := by simpa using hz.length_le
      exact List.eq_nil_of_length_eq_zero (by omega)
    subst hc; subst ht
    simpa [List.dropLast_concat] using hy

lemma crossProduct_swap (o a b : Pt) : crossProduct o a b = -crossProduct o b a := by
  unfold crossProduct
  ring

lemma noCol3_take (l : List Pt) (n : ℕ) (h : NoCol3 l) : NoCol3 (l.take n) := by
  intro k hk j hj i hi
  rw [List.length_take] at hk
  have hk2 : k < n := lt_of_lt_of_le hk (min_le_left _ _)
  have hk1 : k < l.length := lt_of_lt_of_le hk (min_le_right _ _)
  have e : ∀ m, m < n → (l.take n).getD m default = l.getD m default := by
    intro m hm
    rw [List.getD_eq_getElem?_getD, List.getD_eq_getElem?_getD, List.getElem?_take_of_lt hm]
  rw [e k hk2, e j (by omega), e i (by omega)]
  exact h k hk1 j hj i hi

lemma noCol3_drop (l : List Pt) (n : ℕ) (h : NoCol3 l) : NoCol3 (l.drop n) := by
  intro k hk j hj i hi
  rw [List.length_drop] at hk
  have e : ∀ m, (l.drop n).getD m default = l.getD (n + m) default := by
    intro m
    rw [List.getD_eq_getElem?_getD, List.getD_eq_getElem?_getD, List.getElem?_drop]
  rw [e k, e j, e i]
  exact h (n + k) (by omega) (n + j) (by omega) (n + i) (by omega)

/-! Core lemmas about the Douglas-Peucker simplifier. -/

lemma douglasPeuckerFuel_succ (fuel : ℕ) (points : List Pt) (ε : ℝ) :
    douglasPeuckerFuel (fuel + 1) points ε =
      if points.length < 3 then points
      else if ε < (maxDistIdx points).1 then
        (douglasPeuckerFuel fuel (points.take ((maxDistIdx points).2 + 1)) ε).dropLast ++
          douglasPeuckerFuel fuel (points.drop (maxDistIdx points).2) ε
      else [points.headI, points.getLastI] := rfl

lemma douglasPeuckerFuel_collapse (fuel : ℕ) (points : List Pt) (ε : ℝ)
    (h3 : 3 ≤ points.length) (hε : 0 ≤ ε)
    (hd : ∀ i ∈ List.range' 1 (points.length - 2), interiorDist points i ≤ ε) :
    douglasPeuckerFuel (fuel + 1) points ε = [points.headI, points.getLastI] := by
  rw [douglasPeuckerFuel_succ, if_neg (by omega), if_neg]
  obtain ⟨h1, _, hinv⟩ := maxDistIdx_spec points
  rcases hinv with heq | ⟨hmem, hval⟩
  · rw [heq]
    simpa using hε
  · rw [not_lt, hval]
    exact hd _ hmem

lemma douglasPeuckerFuel_identity : ∀ (fuel : ℕ) (points : List Pt),
    points.length ≤ fuel → NoCol3 points → douglasPeuckerFuel fuel points 0 = points := by
  intro fuel
  induction fuel with
  | zero => intro points _ _; rfl
  | succ f ih =>
    intro points hlen hcol
    by_cases h3 : points.length < 3
    · rw [douglasPeuckerFuel_succ, if_pos h3]
    · push_neg at h3
      have hne : points ≠ [] := by
        apply List.ne_nil_of_length_pos
        omega
      obtain ⟨hnn, hub, hinv⟩ := maxDistIdx_spec points
      have h1mem : 1 ∈ List.range' 1 (points.length - 2) := by
        rw [List.mem_range'_1]
        omega
      have hc1 : crossProduct points.headI points.getLastI (points.getD 1 default) ≠ 0 := by
        have hcc := hcol (points.length - 1) (by omega) 1 (by omega) 0 (by omega)
        rw [getD_zero_eq_headI _ hne, getD_last_eq_getLastI _ hne] at hcc
        rw [crossProduct_swap]
        simpa using hcc
      have hpos : 0 < interiorDist points 1 := perpendicularDistance_pos _ _ _ hc1
      have hmd : 0 < (maxDistIdx points).1 := lt_of_lt_of_le hpos (hub 1 h1mem)
      rw [douglasPeuckerFuel_succ, if_neg (by omega), if_pos hmd]
      rcases hinv with heq | ⟨hmem, hval⟩
      · rw [heq] at hmd
        simp at hmd
      · have hidx : 1 ≤ (maxDistIdx points).2 ∧ (maxDistIdx points).2 < points.length - 1 := by
          rw [List.mem_range'_1] at hmem
          omega
        have hleft : douglasPeuckerFuel f (points.take ((maxDistIdx points).2 + 1)) 0 =
            points.take ((maxDistIdx points).2 + 1) := by
          apply ih _ _ (noCol3_take _ _ hcol)
          rw [List.length_take]
          omega
        have hright : douglasPeuckerFuel f (points.drop (maxDistIdx points).2) 0 =
            points.drop (maxDistIdx points).2 := by
          apply ih _ _ (noCol3_drop _ _ hcol)
          rw [List.length_drop]
          omega
        rw [hleft, hright, List.take_succ,
          List.getElem?_eq_getElem (show (maxDistIdx points).2 < points.length by omega),
          Option.toList_some, List.dropLast_concat]
        exact List.take_append_drop _ _

lemma getLastI_pair (x y : Pt) : ([x, y] : List Pt).getLastI = y := rfl

lemma douglasPeuckerFuel_shape : ∀ (fuel : ℕ) (points : List Pt) (ε : ℝ), points ≠ [] →
    List.Sublist (douglasPeuckerFuel fuel points ε) points ∧
    douglasPeuckerFuel fuel points ε ≠ [] ∧
    (douglasPeuckerFuel fuel points ε).headI = points.headI ∧
    (douglasPeuckerFuel fuel points ε).getLastI = points.getLastI := by
  intro fuel
  induction fuel with
  | zero => intro points ε h; exact ⟨List.Sublist.refl _, h, rfl, rfl⟩
  | succ f ih =>
    intro points ε hne
    by_cases h3 : points.length < 3
    · rw [douglasPeuckerFuel_succ, if_pos h3]
      exact ⟨List.Sublist.refl _, hne, rfl, rfl⟩
    · push_neg at h3
      rw [douglasPeuckerFuel_succ, if_neg (by omega)]
      by_cases hbr : ε < (maxDistIdx points).1
      · rw [if_pos hbr]
        obtain ⟨_, _, hinv⟩ := maxDistIdx_spec points
        have hidxle : (maxDistIdx points).2 ≤ points.length - 2 := by
          rcases hinv with heq | ⟨hmem, _⟩
          · rw [heq]
            omega
          · rw [List.mem_range'_1] at hmem
            omega
        set idx := (maxDistIdx points).2 with hidxdef
        have hidxlt : idx < points.length := by omega
        have htake_ne : points.take (idx + 1) ≠ [] := by
          apply List.ne_nil_of_length_pos
          rw [List.length_take]
          omega
        have hdrop_ne : points.drop idx ≠ [] := by
          apply List.ne_nil_of_length_pos
          rw [List.length_drop]
          omega
        have htake_eq : points.take (idx + 1) = points.take idx ++ [points.getD idx default] := by
          rw [List.take_succ, List.getElem?_eq_getElem hidxlt, Option.toList_some,
            List.getD_eq_getElem?_getD, List.getElem?_eq_getElem hidxlt]
          rfl
        set L := douglasPeuckerFuel f (points.take (idx + 1)) ε with hL
        set R := douglasPeuckerFuel f (points.drop idx) ε with hR
        obtain ⟨ls, lne, lh, ll⟩ := ih (points.take (idx + 1)) ε htake_ne
        obtain ⟨rs, rne, rh, rl⟩ := ih (points.drop idx) ε hdrop_ne
        rw [← hL] at ls lne lh ll
        rw [← hR] at rs rne rh rl
        refine ⟨?_, ?_, ?_, ?_⟩
        · have h1 : List.Sublist L.dropLast (points.take idx) := by
            apply sublist_concat_dropLast _ _ (points.getD idx default)
            rw [← htake_eq]
            exact ls
          have h2 := List.Sublist.append h1 rs
          rwa [List.take_append_drop] at h2
        · intro hc
          exact rne (List.append_eq_nil.mp hc).2
        · by_cases hld : L.dropLast = []
          · rw [hld, List.nil_append, rh, headI_drop _ _ hidxlt]
            obtain ⟨a, ha⟩ : ∃ a, L = [a] := by
              cases hcase : L with
              | nil => exact absurd hcase lne
              | cons a t =>
                cases t with
                | nil => exact ⟨a, rfl⟩
                | cons b u =>
                  rw [hcase, List.dropLast_cons₂] at hld
                  simp at hld
            have e1 : points.headI = a := by
              rw [← headI_take points (idx + 1) (by omega) hne, ← lh, ha]
              rfl
            have e2 : points.getD idx default = a := by
              rw [← getLastI_take_succ points idx hidxlt, ← ll, ha]
              rfl
            rw [e2, e1]
          · rw [headI_append _ _ hld]
            have hlen2 : 2 ≤ L.length := by
              cases hcase : L with
              | nil => exact absurd hcase lne
              | cons a t =>
                cases t with
                | nil =>
                  rw [hcase] at hld
                  simp at hld
                | cons b u => simp
            rw [headI_dropLast _ hlen2, lh, headI_take _ _ (by omega) hne]
        · rw [getLastI_append _ _ rne, rl, getLastI_drop _ _ hidxlt]
      · rw [if_neg hbr]
        refine ⟨?_, by simp, rfl, getLastI_pair _ _⟩
        cases points with
        | nil => exact absurd rfl hne
        | cons a t =>
          have htne : t ≠ [] := by
            intro hc
            rw [hc] at h3
            simp at h3
          have h1 : (a :: t).getLastI = t.getLastI := by
            have := getLastI_append [a] t htne
            simpa using this
          rw [h1]
          show List.Sublist (a :: [t.getLastI]) (a :: t)
          exact List.Sublist.cons₂ a (List.singleton_sublist.mpr (getLastI_mem t htne))

/-! Helper lemmas for the contour selector and collinear contours. -/

lemma selectContour_cases (hull boundary : List Pt) (extent : ℚ) :
    selectContour hull boundary extent = boundary ∨
      selectContour hull boundary extent = hull := by
  unfold selectContour
  split_ifs <;> simp

lemma douglasPeucker_collinear (l : List Pt) (h3 : 3 ≤ l.length) (ε : ℝ) (hε : 0 ≤ ε)
    (hcol : ∀ i, 1 ≤ i → i ≤ l.length - 2 →
      crossProduct l.headI l.getLastI (l.getD i default) = 0) :
    douglasPeucker l ε = [l.headI, l.getLastI] := by
  unfold douglasPeucker
  obtain ⟨g, hg⟩ : ∃ g, l.length = g + 1 := ⟨l.length - 1, by omega⟩
  rw [hg]
  apply douglasPeuckerFuel_collapse _ _ _ h3 hε
  intro i hi
  rw [List.mem_range'_1] at hi
  rw [interiorDist, perpendicularDistance_zero _ _ _ (hcol i (by omega) (by omega))]
  exact hε

lemma boundaryOf_sublist (component : List Pt) (width height : ℤ) :
    List.Sublist (boundaryOf component width height) component := by
  unfold boundaryOf extractBoundary
  apply List.filter_sublist

lemma dp_collinear8_len :
    (douglasPeucker collinear8 (0.01 * calculatePerimeter collinear8)).length < 4 := by
  rw [douglasPeucker_collinear collinear8 (by decide) _
    (mul_nonneg (by norm_num) (calculatePerimeter_nonneg _)) ?_]
  · simp
  · intro i h1 h2
    have h2' : i ≤ 6 := by
      have hlen : collinear8.length = 8 := rfl
      omega
    interval_cases i <;> decide

lemma dp_collinear9_len :
    (douglasPeucker collinear9 (0.01 * calculatePerimeter collinear9)).length < 4 := by
  rw [douglasPeucker_collinear collinear9 (by decide) _
    (mul_nonneg (by norm_num) (calculatePerimeter_nonneg _)) ?_]
  · simp
  · intro i h1 h2
    have h2' : i ≤ 7 := by
      have hlen : collinear9.length = 9 := rfl
      omega
    interval_cases i <;> decide

/-! Lemmas about the classifier. -/

lemma conf_min_eq (c : ℝ) : 0.90 + min 0.08 (c * 0.1) = min 0.98 (0.90 + 0.10 * c) := by
  rcases le_total (c * 0.1) 0.08 with hle | hle
  · rw [min_eq_right hle, min_eq_right (by linarith)]
    ring
  · rw [min_eq_left hle, min_eq_left (by linarith)]
    norm_num

lemma conf_of_eq {t t' : ShapeType} {c conf : ℝ}
    (h : (some (t', c) : Option (ShapeType × ℝ)) = some (t, conf)) : conf = c :=
  (congrArg Prod.snd (Option.some.inj h)).symm

lemma type_of_eq {t t' : ShapeType} {c conf : ℝ}
    (h : (some (t', c) : Option (ShapeType × ℝ)) = some (t, conf)) : t' = t :=
  congrArg Prod.fst (Option.some.inj h)

set_option maxHeartbeats 2000000 in
lemma classifyShape_conf_bounds (approx hull : List Pt) (bbox : BBox) (center : ℚ × ℚ)
    (area : ℕ) (perimeter : ℝ) (t : ShapeType) (conf : ℝ)
    (h : classifyShape approx hull bbox center area perimeter = some (t, conf)) :
    0.60 ≤ conf ∧ conf ≤ 0.98 := by
  unfold classifyShape at h
  dsimp only at h
  generalize hcirc : 4 * Real.pi * (area : ℝ) / (perimeter * perimeter) = circ at h
  generalize hext : (area : ℝ) / ((bbox.width : ℝ) * (bbox.height : ℝ)) = extent at h
  generalize hasp : (bbox.width : ℝ) / (bbox.height : ℝ) = asp at h
  generalize hv : approx.length = v at h
  have hcirc0 : 0 ≤ circ := by
    rw [← hcirc]
    exact div_nonneg (by positivity) (mul_self_nonneg perimeter)
  by_cases h1 : isCircular hull center bbox circ extent asp
  · rw [if_pos h1] at h
    rw [conf_of_eq h]
    constructor
    · have hm : 0 ≤ min (0.08 : ℝ) (circ * 0.1) :=
        le_min (by norm_num) (mul_nonneg hcirc0 (by norm_num))
      linarith
    · have hm := min_le_left (0.08 : ℝ) (circ * 0.1)
      linarith
  rw [if_neg h1] at h
  by_cases h2 : v = 3
  · rw [if_pos h2] at h
    rw [conf_of_eq h]
    norm_num
  rw [if_neg h2] at h
  by_cases h3 : v = 4 ∧ 0.70 < extent
  · rw [if_pos h3] at h
    rw [conf_of_eq h]
    constructor <;> (try split) <;> norm_num
  rw [if_neg h3] at h
  by_cases h4 : v = 4 ∧ extent < 0.60
  · rw [if_pos h4] at h
    rw [conf_of_eq h]
    norm_num
  rw [if_neg h4] at h
  by_cases h5 : v = 5 ∧ 0.65 < extent
  · rw [if_pos h5] at h
    rw [conf_of_eq h]
    constructor <;> (try split) <;> norm_num
  rw [if_neg h5] at h
  by_cases h6 : v = 5 ∧ 0.45 < extent ∧ extent ≤ 0.65 ∧ 0.7 < asp ∧ asp < 1.5
  · rw [if_pos h6] at h
    rw [conf_of_eq h]
    norm_num
  rw [if_neg h6] at h
  by_cases h7 : 8 ≤ v ∧ extent < 0.50 ∧ isStar hull center v extent
  · rw [if_pos h7] at h
    rw [conf_of_eq h]
    norm_num
  rw [if_neg h7] at h
  by_cases h8 : 6 ≤ v ∧ v ≤ 7 ∧ extent < 0.38 ∧ isStar hull center v extent
  · rw [if_pos h8] at h
    rw [conf_of_eq h]
    norm_num
  rw [if_neg h8] at h
  by_cases h9 : v = 4
  · rw [if_pos h9] at h
    rw [conf_of_eq h]
    norm_num
  rw [if_neg h9] at h
  by_cases h10 : v = 5
  · rw [if_pos h10] at h
    by_cases h10b : extent < 0.55
    · rw [if_pos h10b] at h
      rw [conf_of_eq h]
      norm_num
    · rw [if_neg h10b] at h
      rw [conf_of_eq h]
      norm_num
  rw [if_neg h10] at h
  by_cases h11 : v = 6 ∧ 0.50 < extent
  · rw [if_pos h11] at h
    rw [conf_of_eq h]
    norm_num
  rw [if_neg h11] at h
  by_cases h12 : 7 ≤ v ∧ extent < 0.50
  · rw [if_pos h12] at h
    rw [conf_of_eq h]
    norm_num
  rw [if_neg h12] at h
  by_cases h13 : 10 ≤ v ∧ extent < 0.60
  · rw [if_pos h13] at h
    rw [conf_of_eq h]
    norm_num
  rw [if_neg h13] at h
  by_cases h14 : 10 ≤ v ∧ 0.80 < extent
  · rw [if_pos h14] at h
    rw [conf_of_eq h]
    norm_num
  rw [if_neg h14] at h
  by_cases h15 : v = 2 ∧ 0.85 < extent
  · rw [if_pos h15] at h
    rw [conf_of_eq h]
    norm_num
  rw [if_neg h15] at h
  exact Option.noConfusion h

set_option maxHeartbeats 1000000 in
lemma classify_circle_eval :
    classifyShape [] circleHull ⟨0, 0, 20, 20⟩ (0, 0) 300 60 =
      some (ShapeType.circle,
        0.90 + min 0.08 (4 * Real.pi * ((300 : ℕ) : ℝ) / ((60 : ℝ) * 60) * 0.1)) := by
  have h100 : Real.sqrt 100 = 10 := by
    rw [show (100 : ℝ) = 10 ^ 2 by norm_num, Real.sqrt_sq (by norm_num : (0 : ℝ) ≤ 10)]
  have hIc : isCircular circleHull (0, 0) ⟨0, 0, 20, 20⟩
      (4 * Real.pi * ((300 : ℕ) : ℝ) / ((60 : ℝ) * 60))
      (((300 : ℕ) : ℝ) / ((((20 : ℤ) : ℝ)) * (((20 : ℤ) : ℝ))))
      ((((20 : ℤ) : ℝ)) / (((20 : ℤ) : ℝ))) := by
    refine ⟨?_, ?_, ?_⟩
    · norm_num
    · rintro (hlt | hlt)
      · push_cast at hlt
        nlinarith [Real.pi_gt_three]
      · push_cast at hlt
        norm_num at hlt
    · simp only [circleHull, List.map_cons, List.map_nil, List.sum_cons, List.sum_nil,
        List.length_cons, List.length_nil]
      push_cast
      norm_num [h100]
  unfold classifyShape
  dsimp only
  rw [if_pos hIc]

/-! Lemmas about analyzeComponent and the per-image loop. -/

lemma mid_formula (mn mx : ℤ) :
    ((mn : ℚ) + (mx : ℚ)) / 2 = (mn : ℚ) + (((mx - mn + 1 : ℤ) : ℚ) - 1) / 2 := by
  push_cast
  ring

lemma centerOf_eq_bbox_mid (c : List Pt) (w h : ℤ) :
    (centerOf c w h).1 = ((bboxOf c w h).x : ℚ) + (((bboxOf c w h).width : ℚ) - 1) / 2 ∧
    (centerOf c w h).2 = ((bboxOf c w h).y : ℚ) + (((bboxOf c w h).height : ℚ) - 1) / 2 := by
  unfold centerOf bboxOf
  dsimp only
  exact ⟨mid_formula _ _, mid_formula _ _⟩

lemma analyzeComponent_eq_none (c : List Pt) (w h : ℤ)
    (hrej : (bboxOf c w h).width < 10 ∨ (bboxOf c w h).height < 10 ∨
      (boundaryOf c w h).length < 8 ∨
      classifyShape (finalApprox (extentOf c w h) (contourOf c w h)) (hullOf c w h)
        (bboxOf c w h) (centerOf c w h) c.length (perimOf c w h) = none) :
    analyzeComponent c w h = none := by
  unfold analyzeComponent
  dsimp only
  by_cases h1 : (bboxOf c w h).width < 10 ∨ (bboxOf c w h).height < 10
  · rw [if_pos h1]
  rw [if_neg h1]
  by_cases h2 : (boundaryOf c w h).length < 8
  · rw [if_pos h2]
  rw [if_neg h2]
  have hcl : classifyShape (finalApprox (extentOf c w h) (contourOf c w h)) (hullOf c w h)
      (bboxOf c w h) (centerOf c w h) c.length (perimOf c w h) = none := by
    rcases hrej with hr | hr | hr | hr
    · exact absurd (Or.inl hr) h1
    · exact absurd (Or.inr hr) h1
    · exact absurd hr h2
    · exact hr
  rw [hcl]

lemma analyzeComponent_some_fields (c : List Pt) (w h : ℤ) (s : DetectedShape)
    (heq : analyzeComponent c w h = some s) :
    ¬ ((bboxOf c w h).width < 10 ∨ (bboxOf c w h).height < 10) ∧
    ¬ ((boundaryOf c w h).length < 8) ∧
    s.boundingBox = bboxOf c w h ∧ s.center = centerOf c w h ∧ s.area = c.length ∧
    ∃ t : ShapeType, classifyShape (finalApprox (extentOf c w h) (contourOf c w h))
      (hullOf c w h) (bboxOf c w h) (centerOf c w h) c.length (perimOf c w h) =
        some (t, s.confidence) := by
  unfold analyzeComponent at heq
  dsimp only at heq
  by_cases h1 : (bboxOf c w h).width < 10 ∨ (bboxOf c w h).height < 10
  · rw [if_pos h1] at heq
    exact Option.noConfusion heq
  rw [if_neg h1] at heq
  by_cases h2 : (boundaryOf c w h).length < 8
  · rw [if_pos h2] at heq
    exact Option.noConfusion heq
  rw [if_neg h2] at heq
  rcases hm : classifyShape (finalApprox (extentOf c w h) (contourOf c w h)) (hullOf c w h)
      (bboxOf c w h) (centerOf c w h) c.length (perimOf c w h) with _ | tc
  · rw [hm] at heq
    exact Option.noConfusion heq
  · obtain ⟨t, conf⟩ := tc
    rw [hm] at heq
    injection heq with heq'
    refine ⟨h1, h2, ?_, ?_, ?_, t, ?_⟩
    · rw [← heq']
    · rw [← heq']
    · rw [← heq']
    · rw [← heq']

/-! Concrete evaluation of the pipeline on the 55-pixel triangle component:
the buggy hull returns exactly the three true corners here, the selector
takes branch 3 (extent 0.55), the simplifier keeps all three vertices, and
the classifier fires the vertex-count-3 triangle rule. -/

set_option maxRecDepth 8000 in
lemma tri_bbox : bboxOf triComponent 20 20 = ⟨1, 1, 10, 10⟩ := by decide

lemma tri_len : triComponent.length = 55 := by decide

lemma tri_boundary_len : (boundaryOf triComponent 20 20).length = 27 := by decide

set_option maxHeartbeats 2000000 in
set_option maxRecDepth 16000 in
lemma tri_hull : hullOf triComponent 20 20 = [(1, 1), (10, 1), (10, 10)] := by decide

lemma tri_extent : extentOf triComponent 20 20 = 55 / 100 := by
  unfold extentOf
  dsimp only
  rw [tri_bbox, tri_len]
  push_cast
  norm_num

set_option maxRecDepth 8000 in
lemma tri_center : centerOf triComponent 20 20 = (11 / 2, 11 / 2) := by
  unfold centerOf
  dsimp only
  rw [show triComponent.foldl (fun m p => min m p.1) 20 = 1 by decide,
    show triComponent.foldl (fun m p => max m p.1) 0 = 10 by decide,
    show triComponent.foldl (fun m p => min m p.2) 20 = 1 by decide,
    show triComponent.foldl (fun m p => max m p.2) 0 = 10 by decide]
  norm_num

lemma tri_contour : contourOf triComponent 20 20 = [(1, 1), (10, 1), (10, 10)] := by
  unfold contourOf selectContour
  rw [tri_hull, tri_extent]
  rw [if_neg (by norm_num), if_neg ?_]
  rintro ⟨-, hx⟩
  norm_num at hx

lemma calculatePerimeter_three (p q r : Pt) :
    calculatePerimeter [p, q, r] = distR p q + distR q r + distR r p := by
  unfold calculatePerimeter
  rw [show ([p, q, r] : List Pt).length = 3 from rfl]
  rw [Finset.sum_range_succ, Finset.sum_range_succ, Finset.sum_range_one]
  rfl

lemma sqrt_81 : Real.sqrt 81 = 9 := by
  rw [show (81 : ℝ) = 9 ^ 2 by norm_num, Real.sqrt_sq (by norm_num : (0 : ℝ) ≤ 9)]

lemma tri_per : calculatePerimeter [(1, 1), (10, 1), (10, 10)] = 9 + 9 + Real.sqrt 162 := by
  rw [calculatePerimeter_three]
  have d1 : distR ((1 : ℤ), (1 : ℤ)) (10, 1) = 9 := by
    unfold distR
    norm_num [sqrt_81]
  have d2 : distR ((10 : ℤ), (1 : ℤ)) (10, 10) = 9 := by
    unfold distR
    norm_num [sqrt_81]
  have d3 : distR ((10 : ℤ), (10 : ℤ)) (1, 1) = Real.sqrt 162 := by
    unfold distR
    norm_num
  rw [d1, d2, d3]

lemma douglasPeucker_three (p q r : Pt) (ε : ℝ) (hε : 0 ≤ ε)
    (hgt : ε < perpendicularDistance q p r) :
    douglasPeucker [p, q, r] ε = [p, q, r] := by
  have hd : maxDistIdx [p, q, r] = (perpendicularDistance q p r, 1) := by
    unfold maxDistIdx
    rw [show ([p, q, r] : List Pt).length - 2 = 1 from rfl,
      show List.range' 1 1 = [1] from rfl, List.foldl_cons, List.foldl_nil]
    dsimp only
    rw [show ([p, q, r] : List Pt).getD 1 default = q from rfl,
      show ([p, q, r] : List Pt).headI = p from rfl,
      show ([p, q, r] : List Pt).getLastI = r from rfl]
    rw [if_pos (lt_of_le_of_lt hε hgt)]
  unfold douglasPeucker
  rw [show ([p, q, r] : List Pt).length = 3 from rfl]
  rw [douglasPeuckerFuel_succ, if_neg (by simp), hd]
  dsimp only
  rw [if_pos hgt]
  rw [show ([p, q, r] : List Pt).take 2 = [p, q] from rfl,
    show ([p, q, r] : List Pt).drop 1 = [q, r] from rfl]
  rw [douglasPeuckerFuel_succ, if_pos (by simp), douglasPeuckerFuel_succ, if_pos (by simp)]
  rfl

lemma sqrt162_le : Real.sqrt 162 ≤ 13 := by
  rw [show (13 : ℝ) = Real.sqrt 169 by
    rw [show (169 : ℝ) = 13 ^ 2 by norm_num, Real.sqrt_sq (by norm_num : (0 : ℝ) ≤ 13)]]
  exact Real.sqrt_le_sqrt (by norm_num)

lemma tri_dp :
    douglasPeucker [(1, 1), (10, 1), (10, 10)] (0.01 * (9 + 9 + Real.sqrt 162)) =
      [(1, 1), (10, 1), (10, 10)] := by
  have hpd : perpendicularDistance ((10 : ℤ), (1 : ℤ)) (1, 1) (10, 10) =
      81 / Real.sqrt 162 := by
    rw [perpendicularDistance_eq]
    norm_num [crossProduct]
  have hl : (0 : ℝ) < Real.sqrt 162 := Real.sqrt_pos.mpr (by norm_num)
  have hs0 : (0 : ℝ) ≤ Real.sqrt 162 := le_of_lt hl
  apply douglasPeucker_three
  · positivity
  · rw [hpd]
    have h81 : (81 : ℝ) / 13 ≤ 81 / Real.sqrt 162 := by
      rw [div_le_div_iff₀ (by norm_num) hl]
      nlinarith [sqrt162_le]
    calc 0.01 * (9 + 9 + Real.sqrt 162) ≤ 0.01 * (9 + 9 + 13) := by nlinarith [sqrt162_le]
      _ < 81 / 13 := by norm_num
      _ ≤ 81 / Real.sqrt 162 := h81

lemma tri_final :
    finalApprox (extentOf triComponent 20 20) [(1, 1), (10, 1), (10, 10)] =
      [(1, 1), (10, 1), (10, 10)] := by
  unfold finalApprox
  dsimp only
  rw [tri_extent, tri_per, tri_dp]
  rw [if_neg (by norm_num), if_neg ?_, if_neg ?_, if_neg ?_]
  · rintro ⟨-, hx⟩
    norm_num at hx
  · rintro ⟨-, hx⟩
    norm_num at hx
  · rintro ⟨hx, -⟩
    norm_num at hx

lemma tri_classify (per : ℝ) :
    classifyShape [(1, 1), (10, 1), (10, 10)] [(1, 1), (10, 1), (10, 10)]
      ⟨1, 1, 10, 10⟩ (11 / 2, 11 / 2) 55 per =
      some (ShapeType.triangle, 0.92) := by
  unfold classifyShape
  dsimp only
  rw [if_neg ?hic, if_pos (show ([(1, 1), (10, 1), (10, 10)] : List Pt).length = 3 from rfl)]
  case hic =>
    rintro ⟨-, h2, -⟩
    apply h2
    right
    push_cast
    norm_num

set_option maxHeartbeats 2000000 in
lemma triangle_analyze_eval :
    analyzeComponent triComponent 20 20 =
      some ⟨ShapeType.triangle, 0.92, ⟨1, 1, 10, 10⟩, (11 / 2, 11 / 2), 55⟩ := by
  unfold analyzeComponent
  dsimp only
  rw [tri_bbox]
  rw [if_neg (by simp)]
  rw [tri_boundary_len]
  rw [if_neg (by norm_num)]
  rw [tri_contour, tri_hull, tri_center, tri_len, tri_final,
    tri_classify (perimOf triComponent 20 20)]

lemma tri_detect :
    detectShapesList [triComponent] 20 20 =
      [⟨ShapeType.triangle, 0.92, ⟨1, 1, 10, 10⟩, (11 / 2, 11 / 2), 55⟩] := by
  have hsome : (fun component => if component.length < 50 then none
      else analyzeComponent component 20 20) triComponent =
      some ⟨ShapeType.triangle, 0.92, ⟨1, 1, 10, 10⟩, (11 / 2, 11 / 2), 55⟩ := by
    dsimp only
    rw [tri_len, if_neg (by norm_num)]
    exact triangle_analyze_eval
  have h2 : List.filterMap (fun component => if component.length < 50 then none
      else analyzeComponent component 20 20) [triComponent] =
      (⟨ShapeType.triangle, 0.92, ⟨1, 1, 10, 10⟩, (11 / 2, 11 / 2), 55⟩ :
          DetectedShape) ::
        List.filterMap (fun component => if component.length < 50 then none
          else analyzeComponent component 20 20) [] :=
    List.filterMap_cons_some hsome
  unfold detectShapesList
  rw [h2, List.filterMap_nil]

end ShapeDetector

/-! Claim theorems. -/

/-- C2, counterexample: on a degenerate boundary of 8 collinear pixels with
pixel-area/bbox-area extent 81/100, the selector takes branch 2 (hull has
fewer than 4 points, extent > 0.80, the boundary — not the hull — is
selected), and the post-simplification refinement guard of main.ts 298 fires
on that boundary contour, contradicting the claim that the refinement is
applied only when the hull contour was selected in branch 3. -/
theorem C2_refinement_counterexample :
    (ShapeDetector.convexHull ShapeDetector.collinear8).length < 4 ∧
    (0.80 : ℚ) < 81 / 100 ∧
    ShapeDetector.selectContour (ShapeDetector.convexHull ShapeDetector.collinear8)
      ShapeDetector.collinear8 (81 / 100) = ShapeDetector.collinear8 ∧
    ShapeDetector.selectContour (ShapeDetector.convexHull ShapeDetector.collinear8)
      ShapeDetector.collinear8 (81 / 100) ≠
        ShapeDetector.convexHull ShapeDetector.collinear8 ∧
    ShapeDetector.refineFires (81 / 100)
      (ShapeDetector.selectContour (ShapeDetector.convexHull ShapeDetector.collinear8)
        ShapeDetector.collinear8 (81 / 100)) := by
  have hsel : ShapeDetector.selectContour (ShapeDetector.convexHull ShapeDetector.collinear8)
      ShapeDetector.collinear8 (81 / 100) = ShapeDetector.collinear8 := by
    unfold ShapeDetector.selectContour
    rw [if_neg (by norm_num), if_pos ⟨by decide, by norm_num⟩]
  refine ⟨by decide, by norm_num, hsel, ?_, ?_⟩
  · rw [hsel]
    decide
  · rw [hsel]
    exact ⟨by norm_num, ShapeDetector.dp_collinear8_len, by norm_num⟩

/-- C2, amended claim proved: the refinement retry is governed only by the
guard extent >= 0.40, first-pass vertex count < 4, extent > 0.80; it
therefore fires in branch 2 (boundary contour selected because the hull
degenerated) exactly as in branch 3, and only branch 1 (extent < 0.40) never
refines. -/
theorem C2_refinement_in_branch_two (extent : ℚ) (hull boundary : List ShapeDetector.Pt)
    (h2 : hull.length < 4) (hx : (0.80 : ℚ) < extent)
    (hlen : (ShapeDetector.douglasPeucker boundary
      (0.01 * ShapeDetector.calculatePerimeter boundary)).length < 4) :
    ShapeDetector.selectContour hull boundary extent = boundary ∧
    ShapeDetector.refineFires extent (ShapeDetector.selectContour hull boundary extent) ∧
    ∀ (e : ℚ) (contour : List ShapeDetector.Pt), e < 0.40 →
      ¬ ShapeDetector.refineFires e contour := by
  have hno : ¬ (extent < 0.40) := by
    intro hc
    have : (0.40 : ℚ) < 0.80 := by norm_num
    linarith
  have hsel : ShapeDetector.selectContour hull boundary extent = boundary := by
    unfold ShapeDetector.selectContour
    rw [if_neg hno, if_pos ⟨h2, hx⟩]
  refine ⟨hsel, ?_, ?_⟩
  · rw [hsel]
    exact ⟨hno, hlen, hx⟩
  · rintro e contour hlt ⟨hc, -, -⟩
    exact hc hlt

/-- Witness for C2_refinement_in_branch_two at a concrete degenerate
boundary of 9 collinear pixels with extent 9/10. -/
theorem C2_refinement_in_branch_two_witness :
    ShapeDetector.selectContour (ShapeDetector.convexHull ShapeDetector.collinear9)
      ShapeDetector.collinear9 (9 / 10) = ShapeDetector.collinear9 ∧
    ShapeDetector.refineFires (9 / 10)
      (ShapeDetector.selectContour (ShapeDetector.convexHull ShapeDetector.collinear9)
        ShapeDetector.collinear9 (9 / 10)) ∧
    ∀ (e : ℚ) (contour : List ShapeDetector.Pt), e < 0.40 →
      ¬ ShapeDetector.refineFires e contour :=
  C2_refinement_in_branch_two (9 / 10) (ShapeDetector.convexHull ShapeDetector.collinear9)
    ShapeDetector.collinear9 (by decide) (by norm_num) ShapeDetector.dp_collinear9_len

/-- C3, counterexample: three collinear input points pass the early-return
guard (length 3) yet the scan returns only 2 hull vertices, refuting the
claim that at least 3 vertices are returned for every input of at least 3
points. -/
theorem C3_hull_counterexample :
    (([((0 : ℤ), (0 : ℤ)), (1, 0), (2, 0)] : List ShapeDetector.Pt).length = 3) ∧
    ShapeDetector.convexHull [((0 : ℤ), (0 : ℤ)), (1, 0), (2, 0)] = [(0, 0), (2, 0)] ∧
    (ShapeDetector.convexHull [((0 : ℤ), (0 : ℤ)), (1, 0), (2, 0)]).length < 3 := by
  refine ⟨rfl, by decide, by decide⟩

/-- C3, amended claim proved: for every input of at least 3 points the hull
builder returns at least 2 ordered vertices (collinear inputs can yield
exactly 2, as the counterexample shows), and a result with fewer vertices
than the input-unchanged early return can only come from that early return,
which fires exactly when the input has fewer than 3 points. -/
theorem C3_hull_min_vertices (points : List ShapeDetector.Pt) (h : 3 ≤ points.length) :
    2 ≤ (ShapeDetector.convexHull points).length ∧
    ∀ q : List ShapeDetector.Pt, q.length < 3 → ShapeDetector.convexHull q = q := by
  refine ⟨ShapeDetector.convexHull_length points h, ?_⟩
  intro q hq
  rw [ShapeDetector.convexHull, if_pos hq]

/-- Witness for C3_hull_min_vertices at a concrete non-collinear triangle. -/
theorem C3_hull_min_vertices_witness :
    2 ≤ (ShapeDetector.convexHull [((0 : ℤ), (0 : ℤ)), (1, 0), (0, 1)]).length ∧
    ∀ q : List ShapeDetector.Pt, q.length < 3 → ShapeDetector.convexHull q = q :=
  C3_hull_min_vertices [((0 : ℤ), (0 : ℤ)), (1, 0), (0, 1)] (by decide)

/-- C4: the convex hull builder is not a convex hull.  On the 4-point square
the scan returns [(0,0),(1,0),(1,1)] and drops the input corner (0,1), which
lies strictly outside the convex span of the returned vertices: all returned
vertices satisfy y <= x while (0,1) does not.  The spec's testable property
states the intended behaviour of a function named and documented as a convex
hull, so this is a code bug (the pivot, having maximal y, sorts into the
middle of the angular order instead of first, so the sweep can discard true
hull corners). -/
theorem C4_hull_roundtrip_fails :
    ShapeDetector.convexHull [((0 : ℤ), (0 : ℤ)), (1, 0), (0, 1), (1, 1)] =
      [(0, 0), (1, 0), (1, 1)] ∧
    ((0 : ℤ), (1 : ℤ)) ∈ ([((0 : ℤ), (0 : ℤ)), (1, 0), (0, 1), (1, 1)] : List ShapeDetector.Pt) ∧
    ¬ ((0 : ℝ), (1 : ℝ)) ∈ convexHull ℝ ({((0 : ℝ), (0 : ℝ)), (1, 0), (1, 1)} : Set (ℝ × ℝ)) := by
  refine ⟨by decide, by decide, ?_⟩
  intro hmem
  have hconv : Convex ℝ {p : ℝ × ℝ | p.2 ≤ p.1} := by
    intro x hx y hy a b ha hb hab
    simp only [Set.mem_setOf_eq] at hx hy ⊢
    simp only [Prod.fst_add, Prod.snd_add, Prod.smul_fst, Prod.smul_snd, smul_eq_mul]
    nlinarith
  have hsub : convexHull ℝ ({((0 : ℝ), (0 : ℝ)), (1, 0), (1, 1)} : Set (ℝ × ℝ)) ⊆
      {p : ℝ × ℝ | p.2 ≤ p.1} := by
    apply convexHull_min ?_ hconv
    rintro p hp
    simp only [Set.mem_insert_iff, Set.mem_singleton_iff] at hp
    rcases hp with rfl | rfl | rfl <;> norm_num
  have hin := hsub hmem
  simp only [Set.mem_setOf_eq] at hin
  norm_num at hin

/-- C6: Douglas-Peucker round trip.  With tolerance 0 the simplifier returns
the input unchanged whenever no three points of the sequence are exactly
collinear (collapsing is possible only on exactly-collinear runs), and with a
tolerance at least as large as every interior perpendicular distance it
returns exactly the two endpoints, for every input of at least 2 points. -/
theorem C6_simplifier_roundtrip (points : List ShapeDetector.Pt) (hlen : 2 ≤ points.length)
    (hcol : ShapeDetector.NoCol3 points) (ε : ℝ) (hε : 0 ≤ ε)
    (hd : ∀ i, 1 ≤ i → i ≤ points.length - 2 → ShapeDetector.interiorDist points i ≤ ε) :
    ShapeDetector.douglasPeucker points 0 = points ∧
    ShapeDetector.douglasPeucker points ε = [points.headI, points.getLastI] := by
  constructor
  · exact ShapeDetector.douglasPeuckerFuel_identity points.length points le_rfl hcol
  · by_cases h3 : points.length < 3
    · have h2 : points.length = 2 := by omega
      match points, h2 with
      | [a, b], _ =>
        rw [ShapeDetector.douglasPeucker]
        rw [show ([a, b] : List ShapeDetector.Pt).length = 2 from rfl,
          ShapeDetector.douglasPeuckerFuel_succ, if_pos (by norm_num)]
        rfl
    · push_neg at h3
      rw [ShapeDetector.douglasPeucker]
      obtain ⟨g, hg⟩ : ∃ g, points.length = g + 1 := ⟨points.length - 1, by omega⟩
      rw [hg]
      apply ShapeDetector.douglasPeuckerFuel_collapse _ _ _ h3 hε
      intro i hi
      rw [List.mem_range'_1] at hi
      exact hd i (by omega) (by omega)

/-- Witness for C6_simplifier_roundtrip on the 3-point corner contour
(0,0),(1,0),(0,1) with tolerance 1: no three points are collinear and the
single interior distance is exactly 1. -/
theorem C6_simplifier_roundtrip_witness :
    ShapeDetector.douglasPeucker [((0 : ℤ), (0 : ℤ)), (1, 0), (0, 1)] 0 =
      [((0 : ℤ), (0 : ℤ)), (1, 0), (0, 1)] ∧
    ShapeDetector.douglasPeucker [((0 : ℤ), (0 : ℤ)), (1, 0), (0, 1)] 1 =
      [([((0 : ℤ), (0 : ℤ)), (1, 0), (0, 1)] : List ShapeDetector.Pt).headI,
        ([((0 : ℤ), (0 : ℤ)), (1, 0), (0, 1)] : List ShapeDetector.Pt).getLastI] := by
  apply C6_simplifier_roundtrip [((0 : ℤ), (0 : ℤ)), (1, 0), (0, 1)] (by decide) (by decide)
    1 (by norm_num)
  intro i h1 h2
  have hlen : ([((0 : ℤ), (0 : ℤ)), (1, 0), (0, 1)] : List ShapeDetector.Pt).length = 3 := rfl
  have hi : i = 1 := by omega
  subst hi
  rw [ShapeDetector.interiorDist, ShapeDetector.perpendicularDistance_eq]
  have e1 : ([((0 : ℤ), (0 : ℤ)), (1, 0), (0, 1)] : List ShapeDetector.Pt).headI = (0, 0) := rfl
  have e2 : ([((0 : ℤ), (0 : ℤ)), (1, 0), (0, 1)] : List ShapeDetector.Pt).getLastI = (0, 1) := rfl
  have e3 : ([((0 : ℤ), (0 : ℤ)), (1, 0), (0, 1)] : List ShapeDetector.Pt).getD 1 default =
      (1, 0) := rfl
  rw [e1, e2, e3]
  norm_num [ShapeDetector.crossProduct, Real.sqrt_one]

/-- C9: for every nonempty input and every tolerance the simplifier output is
an order-preserving subsequence of the input retaining the first and last
points, so every simplified vertex is one of the original contour points. -/
theorem C9_simplifier_subsequence (points : List ShapeDetector.Pt) (ε : ℝ)
    (h : points ≠ []) :
    List.Sublist (ShapeDetector.douglasPeucker points ε) points ∧
    ShapeDetector.douglasPeucker points ε ≠ [] ∧
    (ShapeDetector.douglasPeucker points ε).headI = points.headI ∧
    (ShapeDetector.douglasPeucker points ε).getLastI = points.getLastI ∧
    ∀ q ∈ ShapeDetector.douglasPeucker points ε, q ∈ points := by
  obtain ⟨hs, hn, hh, hl⟩ :=
    ShapeDetector.douglasPeuckerFuel_shape points.length points ε h
  exact ⟨hs, hn, hh, hl, fun q hq => hs.subset hq⟩

/-- Witness for C9_simplifier_subsequence at a concrete 4-point contour and
tolerance 2. -/
theorem C9_simplifier_subsequence_witness :
    List.Sublist (ShapeDetector.douglasPeucker
      [((0 : ℤ), (0 : ℤ)), (3, 1), (5, 0), (6, 4)] 2)
      [((0 : ℤ), (0 : ℤ)), (3, 1), (5, 0), (6, 4)] ∧
    ShapeDetector.douglasPeucker [((0 : ℤ), (0 : ℤ)), (3, 1), (5, 0), (6, 4)] 2 ≠ [] ∧
    (ShapeDetector.douglasPeucker [((0 : ℤ), (0 : ℤ)), (3, 1), (5, 0), (6, 4)] 2).headI =
      ([((0 : ℤ), (0 : ℤ)), (3, 1), (5, 0), (6, 4)] : List ShapeDetector.Pt).headI ∧
    (ShapeDetector.douglasPeucker [((0 : ℤ), (0 : ℤ)), (3, 1), (5, 0), (6, 4)] 2).getLastI =
      ([((0 : ℤ), (0 : ℤ)), (3, 1), (5, 0), (6, 4)] : List ShapeDetector.Pt).getLastI ∧
    ∀ q ∈ ShapeDetector.douglasPeucker [((0 : ℤ), (0 : ℤ)), (3, 1), (5, 0), (6, 4)] 2,
      q ∈ ([((0 : ℤ), (0 : ℤ)), (3, 1), (5, 0), (6, 4)] : List ShapeDetector.Pt) :=
  C9_simplifier_subsequence [((0 : ℤ), (0 : ℤ)), (3, 1), (5, 0), (6, 4)] 2 (by decide)

/-- C1: for every component reaching the classifier — its pixels are pairwise
distinct and its boundary passed the >= 8 points filter — the perimeter
handed to the classifier is strictly positive, whichever contour the selector
picked, so the circularity computation 4*pi*area/perimeter^2 never divides by
a zero perimeter (and the zero-perimeter guard described by the spec is
vacuous: its antecedent never holds). -/
theorem C1_perimeter_never_zero (component : List ShapeDetector.Pt) (width height : ℤ)
    (hnd : component.Nodup)
    (hb : 8 ≤ (ShapeDetector.boundaryOf component width height).length) :
    0 < ShapeDetector.perimOf component width height ∧
    ShapeDetector.perimOf component width height ≠ 0 := by
  have hbnd : (ShapeDetector.boundaryOf component width height).Nodup :=
    (ShapeDetector.boundaryOf_sublist component width height).nodup hnd
  have hh2 : 2 ≤ (ShapeDetector.hullOf component width height).length :=
    ShapeDetector.convexHull_length _ (by omega)
  have hhnd : (ShapeDetector.hullOf component width height).Nodup :=
    ShapeDetector.convexHull_nodup _ hbnd
  have hpos : 0 < ShapeDetector.perimOf component width height := by
    unfold ShapeDetector.perimOf ShapeDetector.contourOf
    rcases ShapeDetector.selectContour_cases (ShapeDetector.hullOf component width height)
      (ShapeDetector.boundaryOf component width height)
      (ShapeDetector.extentOf component width height) with he | he <;> rw [he]
    · exact ShapeDetector.calculatePerimeter_pos _ (by omega) hbnd
    · exact ShapeDetector.calculatePerimeter_pos _ hh2 hhnd
  exact ⟨hpos, ne_of_gt hpos⟩

/-- Witness for C1_perimeter_never_zero at the concrete 55-pixel triangle
component inside a 20x20 image. -/
theorem C1_perimeter_never_zero_witness :
    0 < ShapeDetector.perimOf ShapeDetector.triComponent 20 20 ∧
    ShapeDetector.perimOf ShapeDetector.triComponent 20 20 ≠ 0 :=
  C1_perimeter_never_zero ShapeDetector.triComponent 20 20 (by decide) (by decide)

/-- C5: whenever the classifier reports a circle, the confidence is
0.90 + min(0.08, 0.1*circularity), which equals the claimed
min(0.98, 0.90 + 0.10*circularity); no other rule produces a circle. -/
theorem C5_circle_confidence (approx hull : List ShapeDetector.Pt)
    (bbox : ShapeDetector.BBox) (center : ℚ × ℚ) (area : ℕ) (perimeter : ℝ) (conf : ℝ)
    (h : ShapeDetector.classifyShape approx hull bbox center area perimeter =
      some (ShapeDetector.ShapeType.circle, conf)) :
    conf = min 0.98 (0.90 + 0.10 *
      (4 * Real.pi * (area : ℝ) / (perimeter * perimeter))) := by
  unfold ShapeDetector.classifyShape at h
  dsimp only at h
  generalize hcirc : 4 * Real.pi * (area : ℝ) / (perimeter * perimeter) = circ at h
  generalize hext : (area : ℝ) / ((bbox.width : ℝ) * (bbox.height : ℝ)) = extent at h
  generalize hasp : (bbox.width : ℝ) / (bbox.height : ℝ) = asp at h
  generalize hv : approx.length = v at h
  by_cases h1 : ShapeDetector.isCircular hull center bbox circ extent asp
  · rw [if_pos h1] at h
    rw [ShapeDetector.conf_of_eq h]
    exact ShapeDetector.conf_min_eq circ
  rw [if_neg h1] at h
  by_cases h2 : v = 3
  · rw [if_pos h2] at h
    exact ShapeDetector.ShapeType.noConfusion (ShapeDetector.type_of_eq h)
  rw [if_neg h2] at h
  by_cases h3 : v = 4 ∧ 0.70 < extent
  · rw [if_pos h3] at h
    exact ShapeDetector.ShapeType.noConfusion (ShapeDetector.type_of_eq h)
  rw [if_neg h3] at h
  by_cases h4 : v = 4 ∧ extent < 0.60
  · rw [if_pos h4] at h
    exact ShapeDetector.ShapeType.noConfusion (ShapeDetector.type_of_eq h)
  rw [if_neg h4] at h
  by_cases h5 : v = 5 ∧ 0.65 < extent
  · rw [if_pos h5] at h
    exact ShapeDetector.ShapeType.noConfusion (ShapeDetector.type_of_eq h)
  rw [if_neg h5] at h
  by_cases h6 : v = 5 ∧ 0.45 < extent ∧ extent ≤ 0.65 ∧ 0.7 < asp ∧ asp < 1.5
  · rw [if_pos h6] at h
    exact ShapeDetector.ShapeType.noConfusion (ShapeDetector.type_of_eq h)
  rw [if_neg h6] at h
  by_cases h7 : 8 ≤ v ∧ extent < 0.50 ∧ ShapeDetector.isStar hull center v extent
  · rw [if_pos h7] at h
    exact ShapeDetector.ShapeType.noConfusion (ShapeDetector.type_of_eq h)
  rw [if_neg h7] at h
  by_cases h8 : 6 ≤ v ∧ v ≤ 7 ∧ extent < 0.38 ∧ ShapeDetector.isStar hull center v extent
  · rw [if_pos h8] at h
    exact ShapeDetector.ShapeType.noConfusion (ShapeDetector.type_of_eq h)
  rw [if_neg h8] at h
  by_cases h9 : v = 4
  · rw [if_pos h9] at h
    exact ShapeDetector.ShapeType.noConfusion (ShapeDetector.type_of_eq h)
  rw [if_neg h9] at h
  by_cases h10 : v = 5
  · rw [if_pos h10] at h
    by_cases h10b : extent < 0.55
    · rw [if_pos h10b] at h
      exact ShapeDetector.ShapeType.noConfusion (ShapeDetector.type_of_eq h)
    · rw [if_neg h10b] at h
      exact ShapeDetector.ShapeType.noConfusion (ShapeDetector.type_of_eq h)
  rw [if_neg h10] at h
  by_cases h11 : v = 6 ∧ 0.50 < extent
  · rw [if_pos h11] at h
    exact ShapeDetector.ShapeType.noConfusion (ShapeDetector.type_of_eq h)
  rw [if_neg h11] at h
  by_cases h12 : 7 ≤ v ∧ extent < 0.50
  · rw [if_pos h12] at h
    exact ShapeDetector.ShapeType.noConfusion (ShapeDetector.type_of_eq h)
  rw [if_neg h12] at h
  by_cases h13 : 10 ≤ v ∧ extent < 0.60
  · rw [if_pos h13] at h
    exact ShapeDetector.ShapeType.noConfusion (ShapeDetector.type_of_eq h)
  rw [if_neg h13] at h
  by_cases h14 : 10 ≤ v ∧ 0.80 < extent
  · rw [if_pos h14] at h
    exact ShapeDetector.ShapeType.noConfusion (ShapeDetector.type_of_eq h)
  rw [if_neg h14] at h
  by_cases h15 : v = 2 ∧ 0.85 < extent
  · rw [if_pos h15] at h
    exact ShapeDetector.ShapeType.noConfusion (ShapeDetector.type_of_eq h)
  rw [if_neg h15] at h
  exact Option.noConfusion h

/-- Witness for C5_circle_confidence: on a concrete hull of four points at
exact radius 10 with area 300 and perimeter 60 the classifier does report a
circle, and the reported confidence equals the claimed min expression. -/
theorem C5_circle_confidence_witness :
    ShapeDetector.classifyShape [] ShapeDetector.circleHull ⟨0, 0, 20, 20⟩ (0, 0) 300 60 =
      some (ShapeDetector.ShapeType.circle,
        0.90 + min 0.08 (4 * Real.pi * ((300 : ℕ) : ℝ) / ((60 : ℝ) * 60) * 0.1)) ∧
    (0.90 + min 0.08 (4 * Real.pi * ((300 : ℕ) : ℝ) / ((60 : ℝ) * 60) * 0.1)) =
      min 0.98 (0.90 + 0.10 * (4 * Real.pi * ((300 : ℕ) : ℝ) / ((60 : ℝ) * 60))) :=
  ⟨ShapeDetector.classify_circle_eval,
    C5_circle_confidence [] ShapeDetector.circleHull ⟨0, 0, 20, 20⟩ (0, 0) 300 60 _
      ShapeDetector.classify_circle_eval⟩

/-- C7: every DetectedShape produced by analyzeComponent carries as its area
the pixel count of the originating component (the contour used for analysis
never enters these fields), and its center is the midpoint of the bounding
box's pixel range: center = boundingBox corner + (extent - 1)/2 in each
coordinate, i.e. the exact midpoint of the extreme pixel coordinates
(minX+maxX)/2, not the mass centroid of the pixels. -/
theorem C7_area_and_center (component : List ShapeDetector.Pt) (width height : ℤ)
    (s : ShapeDetector.DetectedShape)
    (h : ShapeDetector.analyzeComponent component width height = some s) :
    s.area = component.length ∧
    s.center.1 = (s.boundingBox.x : ℚ) + ((s.boundingBox.width : ℚ) - 1) / 2 ∧
    s.center.2 = (s.boundingBox.y : ℚ) + ((s.boundingBox.height : ℚ) - 1) / 2 := by
  obtain ⟨-, -, hbb, hc, ha, -⟩ :=
    ShapeDetector.analyzeComponent_some_fields component width height s h
  refine ⟨ha, ?_, ?_⟩
  · rw [hc, hbb]
    exact (ShapeDetector.centerOf_eq_bbox_mid component width height).1
  · rw [hc, hbb]
    exact (ShapeDetector.centerOf_eq_bbox_mid component width height).2

/-- Witness for C7_area_and_center: the 55-pixel triangle component analyzes
to a shape with area 55 and center (11/2, 11/2) = bbox corner (1,1) plus half
of (width − 1, height − 1). -/
theorem C7_area_and_center_witness :
    (55 : ℕ) = ShapeDetector.triComponent.length ∧
      (11 / 2 : ℚ) = ((1 : ℤ) : ℚ) + (((10 : ℤ) : ℚ) - 1) / 2 ∧
      (11 / 2 : ℚ) = ((1 : ℤ) : ℚ) + (((10 : ℤ) : ℚ) - 1) / 2 :=
  C7_area_and_center ShapeDetector.triComponent 20 20
    ⟨ShapeDetector.ShapeType.triangle, 0.92, ⟨1, 1, 10, 10⟩, (11 / 2, 11 / 2), 55⟩
    ShapeDetector.triangle_analyze_eval

/-- C8: a component rejected by any of the soft filters — pixel count below
50, bounding box below 10 in either dimension, boundary below 8 points, or no
classifier rule matching — contributes nothing to the output, and the other
components of the image are processed exactly as if it were absent; the
embedding is total, so no exception can be raised. -/
theorem C8_soft_rejection (pre post : List (List ShapeDetector.Pt))
    (c : List ShapeDetector.Pt) (width height : ℤ)
    (h : c.length < 50 ∨
      (ShapeDetector.bboxOf c width height).width < 10 ∨
      (ShapeDetector.bboxOf c width height).height < 10 ∨
      (ShapeDetector.boundaryOf c width height).length < 8 ∨
      ShapeDetector.classifyShape
        (ShapeDetector.finalApprox (ShapeDetector.extentOf c width height)
          (ShapeDetector.contourOf c width height))
        (ShapeDetector.hullOf c width height) (ShapeDetector.bboxOf c width height)
        (ShapeDetector.centerOf c width height) c.length
        (ShapeDetector.perimOf c width height) = none) :
    ShapeDetector.detectShapesList (pre ++ c :: post) width height =
      ShapeDetector.detectShapesList pre width height ++
        ShapeDetector.detectShapesList post width height := by
  have hnone : (if c.length < 50 then none
      else ShapeDetector.analyzeComponent c width height) = (none : Option _) := by
    by_cases h50 : c.length < 50
    · rw [if_pos h50]
    · rw [if_neg h50]
      apply ShapeDetector.analyzeComponent_eq_none
      rcases h with h | h
      · exact absurd h h50
      · exact h
  unfold ShapeDetector.detectShapesList
  have h2 : List.filterMap
      (fun component => if component.length < 50 then none
        else ShapeDetector.analyzeComponent component width height) (c :: post) =
    List.filterMap
      (fun component => if component.length < 50 then none
        else ShapeDetector.analyzeComponent component width height) post :=
    List.filterMap_cons_none hnone
  rw [List.filterMap_append, h2]

/-- Witness for C8_soft_rejection: a 1-pixel component between two empty
component lists is silently dropped. -/
theorem C8_soft_rejection_witness :
    ShapeDetector.detectShapesList ([] ++ [((0 : ℤ), (0 : ℤ))] :: []) 20 20 =
      ShapeDetector.detectShapesList [] 20 20 ++ ShapeDetector.detectShapesList [] 20 20 :=
  C8_soft_rejection [] [] [((0 : ℤ), (0 : ℤ))] 20 20 (Or.inl (by decide))

/-- C10: every shape in the pipeline output has a bounding box at least 10
wide and 10 tall, an area of at least 50 pixels, and a confidence in the
closed interval [0.60, 0.98] — strictly tighter than the declared [0, 1]. -/
theorem C10_output_invariants (components : List (List ShapeDetector.Pt))
    (width height : ℤ) (s : ShapeDetector.DetectedShape)
    (h : s ∈ ShapeDetector.detectShapesList components width height) :
    10 ≤ s.boundingBox.width ∧ 10 ≤ s.boundingBox.height ∧ 50 ≤ s.area ∧
    0.60 ≤ s.confidence ∧ s.confidence ≤ 0.98 := by
  unfold ShapeDetector.detectShapesList at h
  rw [List.mem_filterMap] at h
  obtain ⟨c, hcmem, heq⟩ := h
  by_cases h50 : c.length < 50
  · rw [if_pos h50] at heq
    exact Option.noConfusion heq
  rw [if_neg h50] at heq
  obtain ⟨h1, -, hbb, -, ha, t, hm⟩ :=
    ShapeDetector.analyzeComponent_some_fields c width height s heq
  push_neg at h1
  obtain ⟨hconf1, hconf2⟩ :=
    ShapeDetector.classifyShape_conf_bounds _ _ _ _ _ _ _ _ hm
  refine ⟨?_, ?_, ?_, hconf1, hconf2⟩
  · rw [hbb]
    exact h1.1
  · rw [hbb]
    exact h1.2
  · rw [ha]
    omega

/-- Witness for C10_output_invariants: the triangle shape produced from a
single-component image has bbox 10 × 10, area 55 and confidence 0.92, all
inside the claimed bounds. -/
theorem C10_output_invariants_witness :
    (10 : ℤ) ≤ 10 ∧ (10 : ℤ) ≤ 10 ∧ (50 : ℕ) ≤ 55 ∧
      (0.60 : ℝ) ≤ 0.92 ∧ (0.92 : ℝ) ≤ 0.98 :=
  C10_output_invariants [ShapeDetector.triComponent] 20 20
    ⟨ShapeDetector.ShapeType.triangle, 0.92, ⟨1, 1, 10, 10⟩, (11 / 2, 11 / 2), 55⟩
    (by rw [ShapeDetector.tri_detect]; exact List.mem_singleton_self _)
